import Mathlib

/-!
# Verification of the utility layer of the construction-materials management system

Shallow embedding of `src/utils.py` (validation, reporting, security,
calculation and export utilities) together with proofs of the specified
properties.  Python floats are modelled as rationals (`ℚ`), Python strings as
Lean `String`/`List Char` (character classes restricted to ASCII, as in the
regexes of the source), and Python dictionaries as association lists.
-/

namespace CPM

/-! ## Character classes used by the regular expressions in `utils.py` -/

/-- The class `[a-zA-Z]` of the source regexes (ASCII letters). -/
def isAsciiAlpha (c : Char) : Bool :=
  ('a' ≤ c && c ≤ 'z') || ('A' ≤ c && c ≤ 'Z')

/-- The class `\d` / `[0-9]` (decimal digits). -/
def isAsciiDigit (c : Char) : Bool :=
  '0' ≤ c && c ≤ '9'

/-- The ASCII part of the Python regex class `\s`:
space, tab, newline, carriage return, form feed, vertical tab. -/
def isPySpace (c : Char) : Bool :=
  c = ' ' || c = '\t' || c = '\n' || c = '\r' || c = '\x0c' || c = '\x0b'

/-! ## A fragment of the Python value/exception model

The validation functions are documented as total, so the embedding makes the
possible runtime exceptions explicit: a function of a dynamically typed
argument returns `Except PyErr`, and an exception raised by a library call
(`re.match` on a non-string raises `TypeError`, `len` on an `int` raises
`TypeError`, iterating character predicates over non-strings raises
`AttributeError`) is an `error` value. -/

/-- Exception classes that the modelled library calls can raise. -/
inductive PyErr
  | typeError
  | valueError
  | attributeError
  | osError
deriving DecidableEq

/-- The dynamically typed values a caller can pass to the validators. -/
inductive PyValue
  | str (s : String)
  | int (n : ℤ)
  | float (q : ℚ)
  | bool (b : Bool)
  | none
  | list (l : List PyValue)

namespace ValidationUtils

/-- Characters of the local part of the email regex: `[a-zA-Z0-9._%+-]`. -/
def isEmailLocalChar (c : Char) : Bool :=
  isAsciiAlpha c || isAsciiDigit c || c = '.' || c = '_' || c = '%' || c = '+' || c = '-'

/-- Characters of the domain part of the email regex: `[a-zA-Z0-9.-]`. -/
def isEmailDomainChar (c : Char) : Bool :=
  isAsciiAlpha c || isAsciiDigit c || c = '.' || c = '-'

/-- All ways to split a list into a prefix and a suffix. -/
def splits : List Char → List (List Char × List Char)
  | [] => [([], [])]
  | c :: t => ([], c :: t) :: (splits t).map (fun p => (c :: p.1, p.2))

/-- The trailing `[a-zA-Z]{2,}$` of the email regex.  Python's `$` also
matches just before a final newline, so a trailing `'\n'` is tolerated. -/
def emailTldOk (c : List Char) : Bool :=
  (decide (2 ≤ c.length) && c.all isAsciiAlpha) ||
  (match c.getLast? with
   | some '\n' => decide (2 ≤ c.dropLast.length) && c.dropLast.all isAsciiAlpha
   | _ => false)

/-- Whether `re.match(r'^[a-zA-Z0-9._%+-]+@[a-zA-Z0-9.-]+\.[a-zA-Z]{2,}$', s)`
succeeds: the string splits as `local ++ "@" ++ domain ++ "." ++ tld` with a
nonempty local part, a nonempty domain part and a valid top-level part
(backtracking is modelled by trying every split). -/
def emailMatch (s : String) : Bool :=
  (splits s.data).any (fun p =>
    match p.2 with
    | '@' :: rest =>
        !p.1.isEmpty && p.1.all isEmailLocalChar &&
          (splits rest).any (fun q =>
            match q.2 with
            | '.' :: tld => !q.1.isEmpty && q.1.all isEmailDomainChar && emailTldOk tld
            | _ => false)
    | _ => false)

/-- `ValidationUtils.validate_email` on a string argument. -/
def validate_email (email : String) : Bool := emailMatch email

/-- The result dict of `validate_password`. -/
structure PasswordChecks where
  length : Bool
  has_upper : Bool
  has_lower : Bool
  has_digit : Bool
  has_special : Bool
deriving DecidableEq

/-- ASCII uppercase letters (the model of Python's `str.isupper`). -/
def isAsciiUpper (c : Char) : Bool := 'A' ≤ c && c ≤ 'Z'

/-- ASCII lowercase letters (the model of Python's `str.islower`). -/
def isAsciiLower (c : Char) : Bool := 'a' ≤ c && c ≤ 'z'

/-- The special-character class `[!@#$%^&*(),.?":{}|<>]` of
`validate_password`. -/
def isSpecialChar (c : Char) : Bool :=
  c = '!' || c = '@' || c = '#' || c = '$' || c = '%' || c = '^' || c = '&' ||
    c = '*' || c = '(' || c = ')' || c = ',' || c = '.' || c = '?' || c = '"' ||
    c = ':' || c = Char.ofNat 123 || c = Char.ofNat 125 || c = '|' || c = '<' ||
    c = '>'

/-- `ValidationUtils.validate_password` on a string argument. -/
def validate_password (password : String) : PasswordChecks :=
  { length := decide (8 ≤ password.length)
    has_upper := password.data.any isAsciiUpper
    has_lower := password.data.any isAsciiLower
    has_digit := password.data.any isAsciiDigit
    has_special := password.data.any isSpecialChar }

/-- `re.sub(r'[,\s]', '', price_str)`: remove commas and whitespace. -/
def stripCommaSpace (s : String) : String :=
  ⟨s.data.filter (fun c => !(c = ',' || isPySpace c))⟩

/-- Value of a list of decimal digits. -/
def digitsToNat (l : List Char) : ℕ :=
  l.foldl (fun a c => a * 10 + (c.toNat - '0'.toNat)) 0

/-- The exponent part accepted after `e`/`E` by Python's `float()`:
an optional sign and a nonempty run of digits. -/
def floatExpPart (l : List Char) : Option ℤ :=
  let signed : ℤ × List Char :=
    match l with
    | '+' :: t => (1, t)
    | '-' :: t => (-1, t)
    | t => (1, t)
  if !signed.2.isEmpty && signed.2.all isAsciiDigit then
    some (signed.1 * digitsToNat signed.2)
  else
    Option.none

/-- Finish parsing a float after the mantissa `m` has been read: either the
input is exhausted or an exponent `e`/`E` part follows. -/
def floatFinish (m : ℚ) (l : List Char) : Option ℚ :=
  match l with
  | [] => some m
  | c :: t =>
      if c = 'e' || c = 'E' then
        (floatExpPart t).map (fun e => m * (10 : ℚ) ^ e)
      else
        Option.none

/-- Model of Python's `float()` on a string already stripped of whitespace:
optional sign, decimal mantissa with optional fractional part, optional
decimal exponent.  (The IEEE specials `inf`/`nan` and digit-group underscores
lie outside the rational model and are treated as parse failures; no claim
depends on them.) -/
def pyFloatOfString (s : String) : Option ℚ :=
  let signed : ℚ × List Char :=
    match s.data with
    | '+' :: t => (1, t)
    | '-' :: t => (-1, t)
    | t => (1, t)
  let ip := signed.2.takeWhile isAsciiDigit
  let r1 := signed.2.dropWhile isAsciiDigit
  match r1 with
  | '.' :: r2 =>
      let fp := r2.takeWhile isAsciiDigit
      let r3 := r2.dropWhile isAsciiDigit
      if ip.isEmpty && fp.isEmpty then
        Option.none
      else
        floatFinish
          (signed.1 * ((digitsToNat ip : ℚ) + (digitsToNat fp : ℚ) / (10 : ℚ) ^ fp.length))
          r3
  | _ =>
      if ip.isEmpty then
        Option.none
      else
        floatFinish (signed.1 * (digitsToNat ip : ℚ)) r1

/-- `ValidationUtils.validate_phone`: strip all non-digits
(`re.sub(r'\D', '', phone)`), then accept a 12-digit string starting with
`237` or any 9-digit string. -/
def validate_phone (phone : String) : Bool :=
  let digits_only := phone.data.filter isAsciiDigit
  if digits_only.length = 12 && List.isPrefixOf ['2', '3', '7'] digits_only then
    true
  else if digits_only.length = 9 then
    true
  else
    false

/-- Python's `str.isupper` on the ASCII fragment: at least one letter and no
lowercase letter. -/
def pyStrIsUpper (s : String) : Bool :=
  s.data.any isAsciiAlpha && s.data.all (fun c => !isAsciiLower c)

/-- Python's `str.islower` on the ASCII fragment. -/
def pyStrIsLower (s : String) : Bool :=
  s.data.any isAsciiAlpha && s.data.all (fun c => !isAsciiUpper c)

/-- Python's `str.isdigit` on the ASCII fragment. -/
def pyStrIsDigit (s : String) : Bool :=
  !s.data.isEmpty && s.data.all isAsciiDigit

namespace Dyn

/-- `validate_email` on a dynamically typed argument: `re.match` raises
`TypeError` on any non-string. -/
def validate_email (v : PyValue) : Except PyErr Bool :=
  match v with
  | .str s => .ok (CPM.ValidationUtils.validate_email s)
  | _ => .error .typeError

/-- `validate_phone` on a dynamically typed argument: `re.sub` raises
`TypeError` on any non-string. -/
def validate_phone (v : PyValue) : Except PyErr Bool :=
  match v with
  | .str s => .ok (CPM.ValidationUtils.validate_phone s)
  | _ => .error .typeError

/-- `any(c.isupper() for c in l)` over a Python list, with the short-circuit
of `any` and an `AttributeError` on the first non-string element reached. -/
def pyAnyIsUpper : List PyValue → Except PyErr Bool
  | [] => .ok false
  | .str s :: t => if pyStrIsUpper s then .ok true else pyAnyIsUpper t
  | _ :: _ => .error .attributeError

/-- `any(c.islower() for c in l)` over a Python list. -/
def pyAnyIsLower : List PyValue → Except PyErr Bool
  | [] => .ok false
  | .str s :: t => if pyStrIsLower s then .ok true else pyAnyIsLower t
  | _ :: _ => .error .attributeError

/-- `any(c.isdigit() for c in l)` over a Python list. -/
def pyAnyIsDigit : List PyValue → Except PyErr Bool
  | [] => .ok false
  | .str s :: t => if pyStrIsDigit s then .ok true else pyAnyIsDigit t
  | _ :: _ => .error .attributeError

/-- `validate_password` on a dynamically typed argument.  On a string it
returns the dict of checks; `len` raises `TypeError` on numbers, booleans and
`None`; on a list the three character predicates iterate the elements (and may
raise `AttributeError`) and the final `re.search` raises `TypeError`. -/
def validate_password (v : PyValue) : Except PyErr PasswordChecks :=
  match v with
  | .str s => .ok (CPM.ValidationUtils.validate_password s)
  | .list l => do
      let _ ← pyAnyIsUpper l
      let _ ← pyAnyIsLower l
      let _ ← pyAnyIsDigit l
      .error .typeError
  | _ => .error .typeError

/-- The `try` body of `validate_price`: strip `[,\s]` (raises `TypeError` on a
non-string), parse with `float()` (raises `ValueError` on a malformed string),
then keep only non-negative prices. -/
def validate_price_body (v : PyValue) : Except PyErr (Option ℚ) :=
  match v with
  | .str s =>
      match pyFloatOfString (stripCommaSpace s) with
      | some price => .ok (if 0 ≤ price then some price else Option.none)
      | Option.none => .error .valueError
  | _ => .error .typeError

/-- `validate_price`: the body wrapped in
`except (ValueError, TypeError): return None`. -/
def validate_price (v : PyValue) : Except PyErr (Option ℚ) :=
  match validate_price_body v with
  | .ok r => .ok r
  | .error .valueError => .ok Option.none
  | .error .typeError => .ok Option.none
  | .error e => .error e

end Dyn

end ValidationUtils

namespace SHA256

/-! Model of the library primitive `hashlib.pbkdf2_hmac('sha256', pw, salt,
100000)`: PBKDF2 over HMAC-SHA-256, the derived key length defaulting to the
32-byte digest size (a single PBKDF2 block).  Bytes are naturals below 256 and
32-bit words are naturals reduced with `w32`. -/

/-- Truncation to a 32-bit word. -/
def w32 (n : ℕ) : ℕ := n % 4294967296

/-- Right rotation of a 32-bit word. -/
def rotr (x n : ℕ) : ℕ := w32 ((x >>> n) ||| (x <<< (32 - n)))

/-- Bitwise complement within 32 bits. -/
def notw (x : ℕ) : ℕ := x ^^^ 4294967295

/-- The `Ch` function of FIPS 180-4. -/
def ch (x y z : ℕ) : ℕ := (x &&& y) ^^^ (notw x &&& z)

/-- The `Maj` function of FIPS 180-4. -/
def maj (x y z : ℕ) : ℕ := (x &&& y) ^^^ (x &&& z) ^^^ (y &&& z)

/-- `Σ₀`. -/
def bigSigma0 (x : ℕ) : ℕ := rotr x 2 ^^^ rotr x 13 ^^^ rotr x 22

/-- `Σ₁`. -/
def bigSigma1 (x : ℕ) : ℕ := rotr x 6 ^^^ rotr x 11 ^^^ rotr x 25

/-- `σ₀`. -/
def smallSigma0 (x : ℕ) : ℕ := rotr x 7 ^^^ rotr x 18 ^^^ (x >>> 3)

/-- `σ₁`. -/
def smallSigma1 (x : ℕ) : ℕ := rotr x 17 ^^^ rotr x 19 ^^^ (x >>> 10)

/-- The 64 round constants of FIPS 180-4 (decimal). -/
def K : List ℕ :=
  [1116352408, 1899447441, 3049323471, 3921009573, 961987163,
   1508970993, 2453635748, 2870763221, 3624381080, 310598401,
   607225278, 1426881987, 1925078388, 2162078206, 2614888103,
   3248222580, 3835390401, 4022224774, 264347078, 604807628,
   770255983, 1249150122, 1555081692, 1996064986, 2554220882,
   2821834349, 2952996808, 3210313671, 3336571891, 3584528711,
   113926993, 338241895, 666307205, 773529912, 1294757372,
   1396182291, 1695183700, 1986661051, 2177026350, 2456956037,
   2730485921, 2820302411, 3259730800, 3345764771, 3516065817,
   3600352804, 4094571909, 275423344, 430227734, 506948616,
   659060556, 883997877, 958139571, 1322822218, 1537002063,
   1747873779, 1955562222, 2024104815, 2227730452, 2361852424,
   2428436474, 2756734187, 3204031479, 3329325298]

/-- The working state (eight 32-bit words). -/
structure Hash where
  a : ℕ
  b : ℕ
  c : ℕ
  d : ℕ
  e : ℕ
  f : ℕ
  g : ℕ
  h : ℕ

/-- The initial hash value (decimal). -/
def initH : Hash :=
  ⟨1779033703, 3144134277, 1013904242, 2773480762,
   1359893119, 2600822924, 528734635, 1541459225⟩

/-- Group bytes into big-endian 32-bit words. -/
def toWords : List ℕ → List ℕ
  | b0 :: b1 :: b2 :: b3 :: t =>
      (b0 * 16777216 + b1 * 65536 + b2 * 256 + b3) :: toWords t
  | _ => []

/-- Extend the 16 block words by `t` further schedule words. -/
def sched (ws : List ℕ) : ℕ → List ℕ
  | 0 => ws
  | t + 1 =>
      let prev := sched ws t
      let n := prev.length
      prev ++ [w32 (smallSigma1 (prev.getD (n - 2) 0) + prev.getD (n - 7) 0 +
        smallSigma0 (prev.getD (n - 15) 0) + prev.getD (n - 16) 0)]

/-- One compression round. -/
def round (st : Hash) (k w : ℕ) : Hash :=
  let t1 := w32 (st.h + bigSigma1 st.e + ch st.e st.f st.g + k + w)
  let t2 := w32 (bigSigma0 st.a + maj st.a st.b st.c)
  ⟨w32 (t1 + t2), st.a, st.b, st.c, w32 (st.d + t1), st.e, st.f, st.g⟩

/-- Compression of one 64-byte block into the chaining state. -/
def compress (hs : Hash) (block : List ℕ) : Hash :=
  let ws := sched (toWords block) 48
  let st := (K.zip ws).foldl (fun st p => round st p.1 p.2) hs
  ⟨w32 (hs.a + st.a), w32 (hs.b + st.b), w32 (hs.c + st.c), w32 (hs.d + st.d),
   w32 (hs.e + st.e), w32 (hs.f + st.f), w32 (hs.g + st.g), w32 (hs.h + st.h)⟩

/-- `k` bytes of `n`, big-endian. -/
def beBytes : ℕ → ℕ → List ℕ
  | 0, _ => []
  | k + 1, n => beBytes k (n / 256) ++ [n % 256]

/-- Number of zero bytes of SHA-256 padding for a message of `L` bytes. -/
def padCount (L : ℕ) : ℕ := (119 - L % 64) % 64

/-- SHA-256 padding: `0x80`, zeros, then the bit length on 8 bytes. -/
def pad (l : List ℕ) : List ℕ :=
  l ++ 128 :: List.replicate (padCount l.length) 0 ++ beBytes 8 (8 * l.length)

/-- Fold the compression function over the 64-byte blocks. -/
def processBlocks (hs : Hash) (l : List ℕ) : Hash :=
  if l = [] then hs else processBlocks (compress hs (l.take 64)) (l.drop 64)
termination_by l.length
decreasing_by
  simp only [List.length_drop]
  have hpos : 0 < l.length := List.length_pos.mpr (by assumption)
  omega

/-- The SHA-256 digest (32 bytes) of a byte string. -/
def sha256 (msg : List ℕ) : List ℕ :=
  let st := processBlocks initH (pad msg)
  beBytes 4 st.a ++ beBytes 4 st.b ++ beBytes 4 st.c ++ beBytes 4 st.d ++
    beBytes 4 st.e ++ beBytes 4 st.f ++ beBytes 4 st.g ++ beBytes 4 st.h

/-- HMAC-SHA-256 with a 64-byte block size. -/
def hmac (key msg : List ℕ) : List ℕ :=
  let k0 := if 64 < key.length then sha256 key else key
  let k1 := k0 ++ List.replicate (64 - k0.length) 0
  sha256 (k1.map (fun b => b ^^^ 0x5c) ++ sha256 (k1.map (fun b => b ^^^ 0x36) ++ msg))

/-- Pointwise xor of two byte strings. -/
def xorBytes (a b : List ℕ) : List ℕ := (a.zip b).map (fun p => p.1 ^^^ p.2)

/-- The iteration loop of the single PBKDF2 block: `n` further applications of
`U ← HMAC(pw, U)`, xor-accumulated. -/
def pbkdf2Loop (pw : List ℕ) : List ℕ → List ℕ → ℕ → List ℕ
  | _, acc, 0 => acc
  | u, acc, n + 1 =>
      let u2 := hmac pw u
      pbkdf2Loop pw u2 (xorBytes acc u2) n

/-- `hashlib.pbkdf2_hmac('sha256', pw, salt, c)` with the default derived-key
length (one 32-byte block); `c = 0` is rejected by the library and never
reached by the source. -/
def pbkdf2_hmac_sha256 (pw salt : List ℕ) : ℕ → List ℕ
  | 0 => []
  | c + 1 =>
      let u1 := hmac pw (salt ++ beBytes 4 1)
      pbkdf2Loop pw u1 u1 c

/-- Lowercase hex digit. -/
def hexDigitChar (n : ℕ) : Char :=
  if n < 10 then Char.ofNat (48 + n) else Char.ofNat (87 + n)

/-- Two lowercase hex digits of a byte, as in `bytes.hex()`. -/
def byteHex (b : ℕ) : List Char := [hexDigitChar (b / 16), hexDigitChar (b % 16)]

/-- `bytes.hex()`. -/
def toHex (l : List ℕ) : String := ⟨(l.map byteHex).flatten⟩

end SHA256

/-- `str.encode('utf-8')` as a byte list. -/
def strBytes (s : String) : List ℕ := s.toUTF8.toList.map (fun b => b.toNat)

namespace SecurityUtils

/-- `SecurityUtils.hash_password`: derive
`pbkdf2_hmac('sha256', password, salt, 100000)` and return `(hex digest,
salt)`.  When no salt is given the source draws `os.urandom(32).hex()`; that
random draw is environment input and is passed in as `fresh_salt`. -/
def hash_password (password : String) (salt : Option String)
    (fresh_salt : String) : String × String :=
  let salt := salt.getD fresh_salt
  (SHA256.toHex (SHA256.pbkdf2_hmac_sha256 (strBytes password) (strBytes salt) 100000),
    salt)

/-- `SecurityUtils.verify_password`: re-derive with the stored salt and
compare (the third argument of `hash_password` is irrelevant because a salt is
supplied). -/
def verify_password (password stored_hash salt : String) : Bool :=
  (hash_password password (some salt) "").1 == stored_hash

/-- A character allowed by the `is_safe_filename` regex
`^[a-zA-Z0-9._\-\s]+$`. -/
def isSafeChar (c : Char) : Bool :=
  isAsciiAlpha c || isAsciiDigit c || c = '.' || c = '_' || c = '-' || isPySpace c

/-- Python's substring test `'..' in filename`. -/
def hasDotDot : List Char → Bool
  | [] => false
  | [_] => false
  | a :: b :: t => (a = '.' && b = '.') || hasDotDot (b :: t)

/-- Python's `filename.startswith('.')`. -/
def startsDot : List Char → Bool
  | '.' :: _ => true
  | _ => false

/-- `SecurityUtils.is_safe_filename`: the whole string matches
`^[a-zA-Z0-9._\-\s]+$`, does not start with `'.'` and has no `".."`. -/
def is_safe_filename (filename : String) : Bool :=
  let safe_chars := !filename.data.isEmpty && filename.data.all isSafeChar
  let no_dots := !startsDot filename.data && !hasDotDot filename.data
  safe_chars && no_dots

end SecurityUtils

namespace ReportUtils

/-- An inventory line as consumed by `generate_inventory_report`: a Python
dict read with `item.get('quantity', 0)`, `item.get('price', 0)` and
`item.get('category', 'Unknown')`, so each field may be absent. -/
structure InvItem where
  quantity : Option ℚ
  price : Option ℚ
  category : Option String
deriving DecidableEq

/-- `item.get('quantity', 0)`. -/
def itemQty (i : InvItem) : ℚ := i.quantity.getD 0

/-- `item.get('price', 0)`. -/
def itemPrice (i : InvItem) : ℚ := i.price.getD 0

/-- `item.get('category', 'Unknown')`. -/
def itemCategory (i : InvItem) : String := i.category.getD "Unknown"

/-- The contribution `item.get('quantity', 0) * item.get('price', 0)`. -/
def itemValue (i : InvItem) : ℚ := itemQty i * itemPrice i

/-- One entry of the per-category rollup. -/
structure CatEntry where
  count : ℕ
  value : ℚ
deriving DecidableEq

/-- One pass of the category loop body: create the entry on first sight
(`{'count': 0, 'value': 0}`), then `+= 1` / `+= value`.  The insertion-ordered
Python dict is modelled as an association list. -/
def updateCat : List (String × CatEntry) → String → ℚ → List (String × CatEntry)
  | [], c, v => [(c, ⟨1, v⟩)]
  | (k, e) :: t, c, v =>
      if k = c then (k, ⟨e.count + 1, e.value + v⟩) :: t
      else (k, e) :: updateCat t c v

/-- The result record of `generate_inventory_report`. -/
structure InventoryReport where
  total_items : ℕ
  total_value : ℚ
  low_stock_count : ℕ
  low_stock_items : List InvItem
  categories : List (String × CatEntry)
  generated_date : String

/-- `ReportUtils.generate_inventory_report`.  The timestamp
`datetime.datetime.now().isoformat()` is environment input and is passed in as
the `now` argument. -/
def generate_inventory_report (store_data : List InvItem) (now : String) :
    InventoryReport :=
  let total_items := store_data.length
  let total_value := (store_data.map itemValue).sum
  let low_stock_items := store_data.filter (fun i => itemQty i < 10)
  let categories :=
    store_data.foldl (fun cats i => updateCat cats (itemCategory i) (itemValue i)) []
  { total_items := total_items
    total_value := total_value
    low_stock_count := low_stock_items.length
    low_stock_items := low_stock_items
    categories := categories
    generated_date := now }

/-- Folding one more line of value `v` into an optional rollup entry. -/
def bumpCat (o : Option CatEntry) (v : ℚ) : CatEntry :=
  match o with
  | none => ⟨1, v⟩
  | some e => ⟨e.count + 1, e.value + v⟩

end ReportUtils

namespace DateTimeUtils

/-- `DateTimeUtils.parse_date`: try the four formats in order and return the
first success.  The datetime type `DT` and the behaviour of the library
primitive `datetime.datetime.strptime` (`strptime s fmt`, with `none` for a
`ValueError`) are parameters of the embedding; the claims proved below hold
for every such primitive. -/
def parse_date {DT : Type} (strptime : String → String → Option DT)
    (date_str : String) : Option DT :=
  strptime date_str "%Y-%m-%d" <|>
    strptime date_str "%d/%m/%Y" <|>
      strptime date_str "%m/%d/%Y" <|>
        strptime date_str "%Y-%m-%d %H:%M:%S"

end DateTimeUtils

namespace ReportUtils

/-- A transaction as consumed by `generate_sales_report`: a Python dict read
with `trans.get('transaction_date', '')` and `trans.get('total_amount', 0)`. -/
structure Transaction where
  transaction_date : Option String
  total_amount : Option ℚ
deriving DecidableEq

/-- `trans.get('transaction_date', '')`. -/
def transDate (t : Transaction) : String := t.transaction_date.getD ""

/-- `trans.get('total_amount', 0)`. -/
def transAmount (t : Transaction) : ℚ := t.total_amount.getD 0

/-- One entry of the daily breakdown. -/
structure DailyEntry where
  count : ℕ
  revenue : ℚ
deriving DecidableEq

/-- One pass of the daily-breakdown loop body, like `updateCat`. -/
def updateDaily : List (String × DailyEntry) → String → ℚ → List (String × DailyEntry)
  | [], k, v => [(k, ⟨1, v⟩)]
  | (q, e) :: t, k, v =>
      if q = k then (q, ⟨e.count + 1, e.revenue + v⟩) :: t
      else (q, e) :: updateDaily t k v

/-- The window test of the period filter:
`trans_date and start_date <= trans_date <= end_date`. -/
def inPeriod {DT : Type} [LinearOrder DT] (strptime : String → String → Option DT)
    (start_date end_date : DT) (t : Transaction) : Bool :=
  match DateTimeUtils.parse_date strptime (transDate t) with
  | some d => decide (start_date ≤ d) && decide (d ≤ end_date)
  | none => false

/-- The result record of `generate_sales_report`. -/
structure SalesReport where
  period_days : ℤ
  start_date : String
  end_date : String
  total_sales : ℕ
  total_revenue : ℚ
  average_sale : ℚ
  daily_breakdown : List (String × DailyEntry)

/-- `ReportUtils.generate_sales_report`.  `now` stands for
`datetime.datetime.now()`, `sub_days now period_days` for
`now - timedelta(days=period_days)`, and `strftime d` for
`d.strftime('%d/%m/%Y')` (which is what `DateTimeUtils.format_date` applies to
the parsed, non-string datetimes used here). -/
def generate_sales_report {DT : Type} [LinearOrder DT]
    (strptime : String → String → Option DT) (strftime : DT → String)
    (now : DT) (sub_days : DT → ℤ → DT)
    (transactions : List Transaction) (period_days : ℤ) : SalesReport :=
  let end_date := now
  let start_date := sub_days now period_days
  let period_transactions := transactions.filter (inPeriod strptime start_date end_date)
  let total_sales := period_transactions.length
  let total_revenue := (period_transactions.map transAmount).sum
  let avg_sale : ℚ := if 0 < total_sales then total_revenue / (total_sales : ℚ) else 0
  let daily_sales := period_transactions.foldl (fun m t =>
    match DateTimeUtils.parse_date strptime (transDate t) with
    | none => m
    | some d => updateDaily m (strftime d) (transAmount t)) []
  { period_days := period_days
    start_date := strftime start_date
    end_date := strftime end_date
    total_sales := total_sales
    total_revenue := total_revenue
    average_sale := avg_sale
    daily_breakdown := daily_sales }

end ReportUtils

namespace CalculationUtils

/-- `CalculationUtils.calculate_percentage_change`. -/
def calculate_percentage_change (old_value new_value : ℚ) : ℚ :=
  if old_value = 0 then
    if new_value ≠ 0 then 100 else 0
  else
    ((new_value - old_value) / old_value) * 100

/-- `CalculationUtils.calculate_material_requirements`
(the Python default for `waste_factor` is `0.1`). -/
def calculate_material_requirements (area material_coverage waste_factor : ℚ) : ℚ :=
  if material_coverage = 0 then
    0
  else
    let basic_requirement := area / material_coverage
    let with_waste := basic_requirement * (1 + waste_factor)
    with_waste

end CalculationUtils

namespace DataExportUtils

/-! Model of `json.dump(data, f, indent=2, ensure_ascii=False, default=str)`
and of `json.load`: a JSON value type, a pretty-printer faithful to the
`json` module's output, and a parser.  Python numbers are restricted to
integers (the claims use no float payloads). -/

/-- JSON values. -/
inductive JValue
  | null
  | bool (b : Bool)
  | num (n : ℤ)
  | str (s : String)
  | arr (elems : List JValue)
  | obj (members : List (String × JValue))

/-- The in-memory records handed to the export functions. A `date` is an
opaque `datetime` carrying the rendering that `str()` (the `default=str`
fallback of `json.dump`) produces for it. -/
inductive PyData
  | none
  | bool (b : Bool)
  | int (n : ℤ)
  | str (s : String)
  | date (rendering : String)
  | list (elems : List PyData)
  | dict (members : List (String × PyData))

mutual

/-- How `json.dump` with `default=str` interprets a Python value. -/
def pyToJson : PyData → JValue
  | .none => .null
  | .bool b => .bool b
  | .int n => .num n
  | .str s => .str s
  | .date r => .str r
  | .list l => .arr (pyToJsonList l)
  | .dict m => .obj (pyToJsonMembers m)

/-- `pyToJson` on a list of elements. -/
def pyToJsonList : List PyData → List JValue
  | [] => []
  | x :: t => pyToJson x :: pyToJsonList t

/-- `pyToJson` on the members of a dict. -/
def pyToJsonMembers : List (String × PyData) → List (String × JValue)
  | [] => []
  | (k, v) :: t => (k, pyToJson v) :: pyToJsonMembers t

end

mutual

/-- Replace every `date` by its string rendering (what the round trip through
`json.dump`/`json.load` preserves). -/
def replaceDates : PyData → PyData
  | .none => .none
  | .bool b => .bool b
  | .int n => .int n
  | .str s => .str s
  | .date r => .str r
  | .list l => .list (replaceDatesList l)
  | .dict m => .dict (replaceDatesMembers m)

/-- `replaceDates` on a list of elements. -/
def replaceDatesList : List PyData → List PyData
  | [] => []
  | x :: t => replaceDates x :: replaceDatesList t

/-- `replaceDates` on the members of a dict. -/
def replaceDatesMembers : List (String × PyData) → List (String × PyData)
  | [] => []
  | (k, v) :: t => (k, replaceDates v) :: replaceDatesMembers t

end

mutual

/-- The Python value a parsed JSON value denotes (`json.load` output). -/
def jToPy : JValue → PyData
  | .null => .none
  | .bool b => .bool b
  | .num n => .int n
  | .str s => .str s
  | .arr l => .list (jToPyList l)
  | .obj m => .dict (jToPyMembers m)

/-- `jToPy` on a list of elements. -/
def jToPyList : List JValue → List PyData
  | [] => []
  | x :: t => jToPy x :: jToPyList t

/-- `jToPy` on the members of an object. -/
def jToPyMembers : List (String × JValue) → List (String × PyData)
  | [] => []
  | (k, v) :: t => (k, jToPy v) :: jToPyMembers t

end

/-- The indentation of depth `d` with `indent=2`. -/
def ind (d : ℕ) : List Char := List.replicate (2 * d) ' '

/-- Lowercase hex digit (shared shape with `SHA256.hexDigitChar`). -/
def hexChar (n : ℕ) : Char :=
  if n < 10 then Char.ofNat (48 + n) else Char.ofNat (87 + n)

/-- The escaping of one character performed by `json.dump` with
`ensure_ascii=False`: the shortcuts of the module's escape table, `\u00XX`
for the remaining control characters, every other character literal. -/
def escChar (c : Char) : List Char :=
  if c = '"' then ['\\', '"']
  else if c = '\\' then ['\\', '\\']
  else if c = '\n' then ['\\', 'n']
  else if c = '\t' then ['\\', 't']
  else if c = '\r' then ['\\', 'r']
  else if c = '\x08' then ['\\', 'b']
  else if c = '\x0c' then ['\\', 'f']
  else if c.toNat < 32 then
    ['\\', 'u', '0', '0', hexChar (c.toNat / 16), hexChar (c.toNat % 16)]
  else [c]

/-- Escape a whole string body. -/
def escStr (l : List Char) : List Char := (l.map escChar).flatten

/-- Decimal digit character. -/
def digitChar (k : ℕ) : Char := Char.ofNat (48 + k)

/-- Decimal digits of a natural number, most significant first. -/
def natDigits (n : ℕ) : List Char :=
  if _h : n < 10 then [digitChar n]
  else natDigits (n / 10) ++ [digitChar (n % 10)]
termination_by n
decreasing_by
  exact Nat.div_lt_self (by omega) (by omega)

/-- The decimal rendering of an integer, as Python prints `int`. -/
def intChars (n : ℤ) : List Char :=
  if n < 0 then '-' :: natDigits n.natAbs else natDigits n.toNat

mutual

/-- The text `json.dump(v, f, indent=2, ensure_ascii=False)` writes for `v`
placed at indentation depth `d`. -/
def jprint : ℕ → JValue → List Char
  | _, .null => ['n', 'u', 'l', 'l']
  | _, .bool true => ['t', 'r', 'u', 'e']
  | _, .bool false => ['f', 'a', 'l', 's', 'e']
  | _, .num n => intChars n
  | _, .str s => '"' :: (escStr s.data ++ ['"'])
  | _, .arr [] => ['[', ']']
  | d, .arr (x :: xs) => '[' :: '\n' :: printItems (d + 1) d (x :: xs)
  | _, .obj [] => ['\x7b', '\x7d']
  | d, .obj (m :: ms) => '\x7b' :: '\n' :: printMembers (d + 1) d (m :: ms)

/-- The items of a non-empty array, one per line at depth `di`, separated by
commas, followed by the closing bracket at depth `dc`. -/
def printItems : ℕ → ℕ → List JValue → List Char
  | _, dc, [] => '\n' :: (ind dc ++ [']'])
  | di, dc, [x] => ind di ++ (jprint di x ++ ('\n' :: (ind dc ++ [']'])))
  | di, dc, x :: xs => ind di ++ (jprint di x ++ (',' :: '\n' :: printItems di dc xs))

/-- The members of a non-empty object, `"key": value` per line at depth `di`,
separated by commas, followed by the closing brace at depth `dc`. -/
def printMembers : ℕ → ℕ → List (String × JValue) → List Char
  | _, dc, [] => '\n' :: (ind dc ++ ['\x7d'])
  | di, dc, [(k, v)] =>
      ind di ++ ('"' :: (escStr k.data ++ ('"' :: ':' :: ' ' ::
        (jprint di v ++ ('\n' :: (ind dc ++ ['\x7d']))))))
  | di, dc, (k, v) :: ms =>
      ind di ++ ('"' :: (escStr k.data ++ ('"' :: ':' :: ' ' ::
        (jprint di v ++ (',' :: '\n' :: printMembers di dc ms)))))

end

/-- The full text written by `export_to_json` for `data`. -/
def jdumps (data : PyData) : String := ⟨jprint 0 (pyToJson data)⟩

mutual

/-- Fuel needed to parse the printed form of a value. -/
def sizeJ : JValue → ℕ
  | .null => 1
  | .bool _ => 1
  | .num _ => 1
  | .str _ => 1
  | .arr l => 1 + sizeL l
  | .obj m => 1 + sizeM m

/-- Fuel needed to parse a printed item list. -/
def sizeL : List JValue → ℕ
  | [] => 1
  | x :: t => 1 + sizeJ x + sizeL t

/-- Fuel needed to parse a printed member list. -/
def sizeM : List (String × JValue) → ℕ
  | [] => 1
  | (_, v) :: t => 1 + sizeJ v + sizeM t

end

/-- JSON insignificant whitespace. -/
def isWsChar (c : Char) : Bool := c = ' ' || c = '\n' || c = '\t' || c = '\r'

/-- Skip insignificant whitespace. -/
def skipWs (l : List Char) : List Char := l.dropWhile isWsChar

/-- Demand a fixed run of characters. -/
def expectChars (p l : List Char) : Option (List Char) :=
  if p.isPrefixOf l then some (l.drop p.length) else Option.none

/-- Value of one hexadecimal digit. -/
def hexVal (c : Char) : Option ℕ :=
  if isAsciiDigit c then some (c.toNat - 48)
  else if 'a' ≤ c && c ≤ 'f' then some (c.toNat - 87)
  else if 'A' ≤ c && c ≤ 'F' then some (c.toNat - 55)
  else Option.none

/-- The single-character escape shortcuts of JSON strings. -/
def escShort (e : Char) : Option Char :=
  if e = '"' then some '"'
  else if e = '\\' then some '\\'
  else if e = '/' then some '/'
  else if e = 'n' then some '\n'
  else if e = 't' then some '\t'
  else if e = 'r' then some '\r'
  else if e = 'b' then some '\x08'
  else if e = 'f' then some '\x0c'
  else Option.none

/-- Parse the body of a JSON string after the opening quote, returning the
decoded characters and the input after the closing quote. -/
def parseStrBody : List Char → Option (List Char × List Char)
  | [] => Option.none
  | c :: r =>
      if c = '"' then some ([], r)
      else if c = '\\' then
        match r with
        | [] => Option.none
        | e :: r1 =>
            if e = 'u' then
              match r1 with
              | h1 :: h2 :: h3 :: h4 :: r2 =>
                  match hexVal h1, hexVal h2, hexVal h3, hexVal h4 with
                  | some a, some b, some x, some y =>
                      (parseStrBody r2).map
                        (fun p => (Char.ofNat (((a * 16 + b) * 16 + x) * 16 + y) :: p.1, p.2))
                  | _, _, _, _ => Option.none
              | _ => Option.none
            else
              match escShort e with
              | some ec => (parseStrBody r1).map (fun p => (ec :: p.1, p.2))
              | Option.none => Option.none
      else (parseStrBody r).map (fun p => (c :: p.1, p.2))

/-- Value of a run of decimal digits. -/
def digitsVal (l : List Char) : ℕ := l.foldl (fun a c => a * 10 + (c.toNat - 48)) 0

/-- Parse a nonempty run of decimal digits greedily. -/
def parseNum (l : List Char) : Option (ℕ × List Char) :=
  let ds := l.takeWhile isAsciiDigit
  if ds.isEmpty then Option.none
  else some (digitsVal ds, l.dropWhile isAsciiDigit)

mutual

/-- Parse one JSON value (after optional leading whitespace). -/
def parseVal : ℕ → List Char → Option (JValue × List Char)
  | 0, _ => Option.none
  | fuel + 1, l =>
      match skipWs l with
      | [] => Option.none
      | c :: r =>
          if c = 'n' then
            (expectChars ['u', 'l', 'l'] r).map (fun r2 => (JValue.null, r2))
          else if c = 't' then
            (expectChars ['r', 'u', 'e'] r).map (fun r2 => (JValue.bool true, r2))
          else if c = 'f' then
            (expectChars ['a', 'l', 's', 'e'] r).map (fun r2 => (JValue.bool false, r2))
          else if c = '"' then
            (parseStrBody r).map (fun p => (JValue.str ⟨p.1⟩, p.2))
          else if c = '[' then
            parseArrTail fuel r
          else if c = '\x7b' then
            parseObjTail fuel r
          else if c = '-' then
            (parseNum r).map (fun p => (JValue.num (-(p.1 : ℤ)), p.2))
          else if isAsciiDigit c then
            (parseNum (c :: r)).map (fun p => (JValue.num (p.1 : ℤ), p.2))
          else
            Option.none

/-- Parse what follows the opening bracket of an array. -/
def parseArrTail (fuel : ℕ) (r : List Char) : Option (JValue × List Char) :=
  match skipWs r with
  | ']' :: r2 => some (JValue.arr [], r2)
  | _ => (parseItems fuel r).map (fun p => (JValue.arr p.1, p.2))

/-- Parse what follows the opening brace of an object. -/
def parseObjTail (fuel : ℕ) (r : List Char) : Option (JValue × List Char) :=
  match skipWs r with
  | '\x7d' :: r2 => some (JValue.obj [], r2)
  | _ => (parseMembers fuel r).map (fun p => (JValue.obj p.1, p.2))

/-- Parse the items of a non-empty array up to and including the closing
bracket. -/
def parseItems : ℕ → List Char → Option (List JValue × List Char)
  | 0, _ => Option.none
  | fuel + 1, l =>
      match parseVal fuel l with
      | Option.none => Option.none
      | some (v, r) =>
          match skipWs r with
          | ',' :: r2 =>
              match parseItems fuel r2 with
              | some p => some (v :: p.1, p.2)
              | Option.none => Option.none
          | ']' :: r2 => some ([v], r2)
          | _ => Option.none

/-- Parse the members of a non-empty object up to and including the closing
brace. -/
def parseMembers : ℕ → List Char → Option (List (String × JValue) × List Char)
  | 0, _ => Option.none
  | fuel + 1, l =>
      match skipWs l with
      | '"' :: r =>
          match parseStrBody r with
          | Option.none => Option.none
          | some (kcs, r1) =>
              match skipWs r1 with
              | ':' :: r2 =>
                  match parseVal fuel r2 with
                  | Option.none => Option.none
                  | some (v, r3) =>
                      match skipWs r3 with
                      | ',' :: r4 =>
                          match parseMembers fuel r4 with
                          | some p => some ((⟨kcs⟩, v) :: p.1, p.2)
                          | Option.none => Option.none
                      | '\x7d' :: r4 => some ([(⟨kcs⟩, v)], r4)
                      | _ => Option.none
              | _ => Option.none
      | _ => Option.none

end

/-- Model of `json.load`: parse one value, allow trailing whitespace, reject
trailing garbage.  The fuel `length + 1` dominates the nesting structure of
any printable value. -/
def jloads (s : String) : Option JValue :=
  match parseVal (s.data.length + 1) s.data with
  | some (v, r) => if skipWs r = [] then some v else Option.none
  | Option.none => Option.none

/-- `DataExportUtils.export_to_json`.  The outcome of `open(filename, 'w')`
plus the write (which depends on the environment, not on the data) is the
`writeFile` parameter; `json.dump` itself cannot fail on these values because
`default=str` serialises the dates.  Every error is caught and reported as
`False`. -/
def export_to_json (writeFile : String → String → Except PyErr Unit)
    (data : PyData) (filename : String) : Bool :=
  match writeFile filename (jdumps data) with
  | .ok _ => true
  | .error _ => false

/-- `csv.DictWriter.writerows` raises `ValueError` when a row contains a key
outside the fieldnames taken from the first row (`extrasaction='raise'`). -/
def rowKeysOk (fieldnames : List String)
    (rows : List (List (String × PyData))) : Bool :=
  rows.all (fun r => r.all (fun p => fieldnames.contains p.1))

/-- The `try` body of `export_to_csv`: empty data returns `False`; otherwise
open/write (the `writeFile` parameter), then `writerows` which may raise
`ValueError` on a row with unknown keys. -/
def export_to_csv_body (writeFile : String → Except PyErr Unit)
    (data : List (List (String × PyData))) (filename : String) :
    Except PyErr Bool :=
  match data with
  | [] => .ok false
  | row0 :: rest => do
      let _ ← writeFile filename
      if rowKeysOk (row0.map Prod.fst) (row0 :: rest) then
        Except.ok true
      else
        Except.error PyErr.valueError

/-- `DataExportUtils.export_to_csv`: the body under `except Exception:
return False`. -/
def export_to_csv (writeFile : String → Except PyErr Unit)
    (data : List (List (String × PyData))) (filename : String) : Bool :=
  match export_to_csv_body writeFile data filename with
  | .ok b => b
  | .error _ => false

end DataExportUtils

/-! ## Helper lemmas -/

/-- `startswith "237"` is the same as the first three characters being
`2`, `3`, `7`. -/
theorem isPrefixOf_237 (d : List Char) :
    List.isPrefixOf ['2', '3', '7'] d = decide (d.take 3 = ['2', '3', '7']) := by
  rw [Bool.eq_iff_iff, List.isPrefixOf_iff_prefix, decide_eq_true_iff,
    List.prefix_iff_eq_take]
  constructor <;> intro h <;> simpa [eq_comm] using h

open ReportUtils in
/-- Looking up the key just updated by `updateCat`. -/
theorem lookup_updateCat_self (acc : List (String × CatEntry)) (c : String) (v : ℚ) :
    List.lookup c (updateCat acc c v) = some (bumpCat (List.lookup c acc) v) := by
  induction acc with
  | nil => simp [updateCat, List.lookup, bumpCat]
  | cons p t ih =>
    obtain ⟨k, e⟩ := p
    by_cases hk : k = c
    · subst hk
      simp [updateCat, List.lookup, bumpCat]
    · have hck : (c == k) = false := by
        rw [beq_eq_false_iff_ne]
        exact fun h2 => hk h2.symm
      simp [updateCat, List.lookup, hk, hck, ih]

open ReportUtils in
/-- `updateCat` of a different key does not change a lookup. -/
theorem lookup_updateCat_other (acc : List (String × CatEntry)) (k c : String)
    (hkc : k ≠ c) (v : ℚ) :
    List.lookup c (updateCat acc k v) = List.lookup c acc := by
  have hck : (c == k) = false := by
    rw [beq_eq_false_iff_ne]
    exact fun h2 => hkc h2.symm
  induction acc with
  | nil => simp [updateCat, List.lookup, hck]
  | cons p t ih =>
    obtain ⟨q, e⟩ := p
    by_cases hq : q = k
    · subst hq
      simp [updateCat, List.lookup, hck]
    · cases hcq : c == q <;> simp [updateCat, List.lookup, hq, hcq, ih]

open ReportUtils in
/-- Invariant of the category loop: after folding all lines, the entry of a
category `c` is the entry that the filtered sublist of category `c` folds to,
starting from the entry already accumulated. -/
theorem lookup_foldl_updateCat (l : List InvItem) (acc : List (String × CatEntry))
    (c : String) :
    List.lookup c
        (l.foldl (fun cats i => updateCat cats (itemCategory i) (itemValue i)) acc) =
      (l.filter (fun i => itemCategory i = c)).foldl
        (fun o i => some (bumpCat o (itemValue i))) (List.lookup c acc) := by
  induction l generalizing acc with
  | nil => simp
  | cons i t ih =>
    by_cases hc : itemCategory i = c
    · rw [List.foldl_cons, ih, hc, lookup_updateCat_self]
      simp [List.filter_cons, hc]
    · rw [List.foldl_cons, ih, lookup_updateCat_other _ _ _ hc]
      simp [List.filter_cons, hc]

open ReportUtils in
/-- Computation rule of `bumpCat` on a present entry. -/
theorem bumpCat_some (e : CatEntry) (v : ℚ) :
    bumpCat (some e) v = ⟨e.count + 1, e.value + v⟩ := rfl

open ReportUtils in
/-- Computation rule of `bumpCat` on an absent entry. -/
theorem bumpCat_none (v : ℚ) : bumpCat none v = ⟨1, v⟩ := rfl

open ReportUtils in
/-- Folding lines into an existing rollup entry adds their count and value. -/
theorem foldl_bumpCat_some (l : List InvItem) (e : CatEntry) :
    l.foldl (fun o i => some (bumpCat o (itemValue i))) (some e) =
      some ⟨e.count + l.length, e.value + (l.map itemValue).sum⟩ := by
  induction l generalizing e with
  | nil => simp
  | cons i t ih =>
    simp only [List.foldl_cons, bumpCat_some]
    rw [ih]
    simp only [Option.some.injEq, CatEntry.mk.injEq, List.length_cons,
      List.map_cons, List.sum_cons]
    exact ⟨by omega, by rw [add_assoc]⟩

open ReportUtils in
/-- Folding lines into an absent rollup entry yields their count and value,
or nothing if there are none. -/
theorem foldl_bumpCat_none (l : List InvItem) :
    l.foldl (fun o i => some (bumpCat o (itemValue i))) none =
      (if l = [] then none else some ⟨l.length, (l.map itemValue).sum⟩) := by
  cases l with
  | nil => rfl
  | cons i t =>
    simp only [List.foldl_cons, bumpCat_none]
    rw [foldl_bumpCat_some]
    simp only [if_neg (List.cons_ne_nil i t), Option.some.injEq, CatEntry.mk.injEq,
      List.length_cons, List.map_cons, List.sum_cons]
    exact ⟨by omega, trivial⟩

section JsonLemmas

open DataExportUtils

/-- The ten decimal digit characters. -/
def digits10 : List Char := ['0', '1', '2', '3', '4', '5', '6', '7', '8', '9']

theorem mem_digits10_isDigit {c : Char} (h : c ∈ digits10) : isAsciiDigit c = true := by
  fin_cases h <;> decide

theorem mem_digits10_notDelims {c : Char} (h : c ∈ digits10) :
    isWsChar c = false ∧ c ≠ 'n' ∧ c ≠ 't' ∧ c ≠ 'f' ∧ c ≠ '"' ∧ c ≠ '[' ∧
      c ≠ '\x7b' ∧ c ≠ '-' ∧ c ≠ ']' ∧ c ≠ '\x7d' := by
  fin_cases h <;> decide

theorem digitChar_mem (k : ℕ) (h : k < 10) : digitChar k ∈ digits10 := by
  interval_cases k <;> decide

theorem digitChar_toNat (k : ℕ) (h : k < 10) : (digitChar k).toNat = 48 + k := by
  interval_cases k <;> decide

theorem natDigits_mem (n : ℕ) : ∀ c ∈ natDigits n, c ∈ digits10 := by
  induction n using Nat.strong_induction_on with
  | _ n ih =>
    intro c hc
    rw [natDigits] at hc
    split at hc
    · rename_i h10
      simp only [List.mem_singleton] at hc
      subst hc
      exact digitChar_mem n h10
    · rename_i h10
      rcases List.mem_append.mp hc with h | h
      · exact ih (n / 10) (Nat.div_lt_self (by omega) (by omega)) c h
      · simp only [List.mem_singleton] at h
        subst h
        exact digitChar_mem (n % 10) (Nat.mod_lt _ (by omega))

theorem natDigits_ne_nil (n : ℕ) : natDigits n ≠ [] := by
  rw [natDigits]
  split <;> simp

theorem digitsVal_natDigits (n : ℕ) : digitsVal (natDigits n) = n := by
  induction n using Nat.strong_induction_on with
  | _ n ih =>
    rw [natDigits]
    split
    · rename_i h10
      simp [digitsVal, List.foldl, digitChar_toNat n h10]
    · rename_i h10
      have hdiv := ih (n / 10) (Nat.div_lt_self (by omega) (by omega))
      simp only [digitsVal, List.foldl_append, List.foldl] at hdiv ⊢
      rw [hdiv, digitChar_toNat (n % 10) (Nat.mod_lt _ (by omega))]
      omega

theorem takeWhile_digit_run (ds rest : List Char)
    (hds : ∀ c ∈ ds, isAsciiDigit c = true)
    (hrest : ∀ c, rest.head? = some c → isAsciiDigit c = false) :
    (ds ++ rest).takeWhile isAsciiDigit = ds ∧
      (ds ++ rest).dropWhile isAsciiDigit = rest := by
  induction ds with
  | nil =>
    cases rest with
    | nil => simp
    | cons c r =>
      have hc := hrest c rfl
      simp [List.takeWhile_cons, List.dropWhile_cons, hc]
  | cons d ds ih =>
    have hd := hds d (by simp)
    have ih2 := ih (fun c h => hds c (by simp [h]))
    simp [List.takeWhile_cons, List.dropWhile_cons, hd, ih2.1, ih2.2]

theorem natDigits_isEmpty_false (n : ℕ) : (natDigits n).isEmpty = false := by
  cases hnd : natDigits n with
  | nil => exact absurd hnd (natDigits_ne_nil n)
  | cons c cs => rfl

theorem parseNum_natDigits (n : ℕ) (rest : List Char)
    (hrest : ∀ c, rest.head? = some c → isAsciiDigit c = false) :
    parseNum (natDigits n ++ rest) = some (n, rest) := by
  have h := takeWhile_digit_run (natDigits n) rest
    (fun c hc => mem_digits10_isDigit (natDigits_mem n c hc)) hrest
  simp only [parseNum, h.1, h.2, natDigits_isEmpty_false, Bool.false_eq_true,
    if_false, digitsVal_natDigits]

theorem skipWs_append_ws (ws l : List Char) (h : ∀ c ∈ ws, isWsChar c = true) :
    skipWs (ws ++ l) = skipWs l := by
  induction ws with
  | nil => rfl
  | cons c t ih =>
    have hc := h c (by simp)
    show skipWs (c :: (t ++ l)) = skipWs l
    rw [skipWs, List.dropWhile_cons, if_pos hc]
    exact ih (fun c2 h2 => h c2 (by simp [h2]))

theorem skipWs_cons_not (c : Char) (l : List Char) (h : isWsChar c = false) :
    skipWs (c :: l) = c :: l := by
  simp [skipWs, List.dropWhile_cons, h]

theorem wsOnly_ind (d : ℕ) : ∀ c ∈ ind d, isWsChar c = true := by
  intro c hc
  rw [ind] at hc
  have := List.eq_of_mem_replicate hc
  subst this
  rfl

theorem expectChars_self (p t : List Char) : expectChars p (p ++ t) = some t := by
  have hpre : p.isPrefixOf (p ++ t) = true := by
    rw [List.isPrefixOf_iff_prefix]
    exact List.prefix_append p t
  simp [expectChars, hpre, List.drop_left]

theorem escStr_cons (c : Char) (t : List Char) :
    escStr (c :: t) = escChar c ++ escStr t := by
  simp [escStr]

theorem hexVal_hexChar (k : ℕ) (h : k < 16) : hexVal (hexChar k) = some k := by
  interval_cases k <;> decide

theorem parseStrBody_escStr (s rest : List Char) :
    parseStrBody (escStr s ++ ('"' :: rest)) = some (s, rest) := by
  induction s with
  | nil =>
    show parseStrBody (escStr [] ++ ('"' :: rest)) = some ([], rest)
    rw [show escStr [] = [] from rfl, List.nil_append, parseStrBody.eq_def]
    simp
  | cons c t ih =>
    rw [escStr_cons, List.append_assoc, escChar]
    split_ifs with h1 h2 h3 h4 h5 h6 h7 h8
    · subst h1; rw [parseStrBody.eq_def]; simp [escShort, ih]
    · subst h2; rw [parseStrBody.eq_def]; simp [escShort, ih]
    · subst h3; rw [parseStrBody.eq_def]; simp [escShort, ih]
    · subst h4; rw [parseStrBody.eq_def]; simp [escShort, ih]
    · subst h5; rw [parseStrBody.eq_def]; simp [escShort, ih]
    · subst h6; rw [parseStrBody.eq_def]; simp [escShort, ih]
    · subst h7; rw [parseStrBody.eq_def]; simp [escShort, ih]
    · have hhi : c.toNat / 16 < 16 := by omega
      have hlo : c.toNat % 16 < 16 := by omega
      have harith : ((0 * 16 + 0) * 16 + c.toNat / 16) * 16 + c.toNat % 16 = c.toNat := by
        omega
      have h0 : hexVal '0' = some 0 := by decide
      rw [parseStrBody.eq_def]
      simp [h0, hexVal_hexChar _ hhi, hexVal_hexChar _ hlo, ih, harith,
        Char.ofNat_toNat]
      rw [show c.toNat / 16 * 16 + c.toNat % 16 = c.toNat from by omega,
        Char.ofNat_toNat]
    · rw [parseStrBody.eq_def]
      simp [h1, h2, ih]

theorem one_le_sizeJ (v : JValue) : 1 ≤ sizeJ v := by
  cases v <;> simp [sizeJ]

theorem one_le_sizeL (l : List JValue) : 1 ≤ sizeL l := by
  cases l with
  | nil => simp [sizeL]
  | cons x t =>
    simp only [sizeL]
    omega

theorem one_le_sizeM (m : List (String × JValue)) : 1 ≤ sizeM m := by
  cases m with
  | nil => simp [sizeM]
  | cons p t =>
    cases p
    simp only [sizeM]
    omega

theorem wsOnly_append {a b : List Char} (ha : ∀ c ∈ a, isWsChar c = true)
    (hb : ∀ c ∈ b, isWsChar c = true) : ∀ c ∈ a ++ b, isWsChar c = true := by
  intro c hc
  rcases List.mem_append.mp hc with h | h
  · exact ha c h
  · exact hb c h

theorem wsOnly_nl_ind (d : ℕ) : ∀ c ∈ '\n' :: ind d, isWsChar c = true := by
  intro c hc
  rcases List.mem_cons.mp hc with h | h
  · subst h; rfl
  · exact wsOnly_ind d c h

theorem jprint_head (d : ℕ) (v : JValue) :
    ∃ c cs, jprint d v = c :: cs ∧ isWsChar c = false ∧ c ≠ ']' ∧ c ≠ '\x7d' := by
  cases v with
  | null => exact ⟨'n', ['u', 'l', 'l'], by rw [jprint], by decide, by decide, by decide⟩
  | bool b =>
    cases b with
    | true =>
      exact ⟨'t', ['r', 'u', 'e'], by rw [jprint], by decide, by decide, by decide⟩
    | false =>
      exact ⟨'f', ['a', 'l', 's', 'e'], by rw [jprint], by decide, by decide, by decide⟩
  | num n =>
    rw [show jprint d (JValue.num n) = intChars n from by rw [jprint], intChars]
    split_ifs with hn
    · exact ⟨'-', _, rfl, by decide, by decide, by decide⟩
    · cases hnd : natDigits n.toNat with
      | nil => exact absurd hnd (natDigits_ne_nil _)
      | cons c cs =>
        have hmem : c ∈ digits10 :=
          natDigits_mem n.toNat c (by rw [hnd]; exact List.mem_cons_self _ _)
        obtain ⟨hws, _, _, _, _, _, _, _, hrb, hcb⟩ := mem_digits10_notDelims hmem
        exact ⟨c, cs, rfl, hws, hrb, hcb⟩
  | str s =>
    exact ⟨'"', escStr s.data ++ ['"'], by rw [jprint], by decide, by decide, by decide⟩
  | arr l =>
    cases l with
    | nil => exact ⟨'[', [']'], by rw [jprint], by decide, by decide, by decide⟩
    | cons x xs =>
      exact ⟨'[', '\n' :: printItems (d + 1) d (x :: xs), by rw [jprint],
        by decide, by decide, by decide⟩
  | obj m =>
    cases m with
    | nil => exact ⟨'\x7b', ['\x7d'], by rw [jprint], by decide, by decide, by decide⟩
    | cons p ms =>
      exact ⟨'\x7b', '\n' :: printMembers (d + 1) d (p :: ms), by rw [jprint],
        by decide, by decide, by decide⟩

/-- After whitespace, a printed non-empty item list starts with the head of
its first printed value. -/
theorem skipWs_printItems (di dc : ℕ) (l : List JValue) (rest : List Char)
    (h : l ≠ []) :
    ∃ c0 t0, skipWs (printItems di dc l ++ rest) = c0 :: t0 ∧
      isWsChar c0 = false ∧ c0 ≠ ']' ∧ c0 ≠ '\x7d' := by
  obtain ⟨x, xs, rfl⟩ : ∃ x xs, l = x :: xs := by
    cases l with
    | nil => exact absurd rfl h
    | cons x xs => exact ⟨x, xs, rfl⟩
  obtain ⟨c0, cs, hpr, hws0, hrb, hcb⟩ := jprint_head di x
  cases xs with
  | nil =>
    have heq : skipWs (printItems di dc [x] ++ rest) =
        c0 :: ((cs ++ ('\n' :: (ind dc ++ [']']))) ++ rest) := by
      rw [show printItems di dc [x] =
          ind di ++ (jprint di x ++ ('\n' :: (ind dc ++ [']']))) from by rw [printItems]]
      rw [List.append_assoc, skipWs_append_ws _ _ (wsOnly_ind di), hpr,
        List.cons_append, List.cons_append, skipWs_cons_not _ _ hws0]
    exact ⟨c0, _, heq, hws0, hrb, hcb⟩
  | cons y ys =>
    have heq : skipWs (printItems di dc (x :: y :: ys) ++ rest) =
        c0 :: ((cs ++ (',' :: '\n' :: printItems di dc (y :: ys))) ++ rest) := by
      rw [show printItems di dc (x :: y :: ys) =
          ind di ++ (jprint di x ++ (',' :: '\n' :: printItems di dc (y :: ys)))
          from by rw [printItems]; simp]
      rw [List.append_assoc, skipWs_append_ws _ _ (wsOnly_ind di), hpr,
        List.cons_append, List.cons_append, skipWs_cons_not _ _ hws0]
    exact ⟨c0, _, heq, hws0, hrb, hcb⟩

/-- After whitespace, a printed non-empty member list starts with the opening
quote of its first key. -/
theorem skipWs_printMembers (di dc : ℕ) (m : List (String × JValue))
    (rest : List Char) (h : m ≠ []) :
    ∃ t0, skipWs (printMembers di dc m ++ rest) = '"' :: t0 := by
  obtain ⟨k, v, ms, rfl⟩ : ∃ k v ms, m = (k, v) :: ms := by
    cases m with
    | nil => exact absurd rfl h
    | cons p ms =>
      obtain ⟨k, v⟩ := p
      exact ⟨k, v, ms, rfl⟩
  cases ms with
  | nil =>
    have heq : skipWs (printMembers di dc [(k, v)] ++ rest) =
        '"' :: ((escStr k.data ++ ('"' :: ':' :: ' ' ::
          (jprint di v ++ ('\n' :: (ind dc ++ ['\x7d']))))) ++ rest) := by
      rw [show printMembers di dc [(k, v)] =
          ind di ++ ('"' :: (escStr k.data ++ ('"' :: ':' :: ' ' ::
            (jprint di v ++ ('\n' :: (ind dc ++ ['\x7d'])))))) from by rw [printMembers]]
      rw [List.append_assoc, skipWs_append_ws _ _ (wsOnly_ind di),
        List.cons_append, skipWs_cons_not _ _ (by decide)]
    exact ⟨_, heq⟩
  | cons p2 ms2 =>
    have heq : skipWs (printMembers di dc ((k, v) :: p2 :: ms2) ++ rest) =
        '"' :: ((escStr k.data ++ ('"' :: ':' :: ' ' ::
          (jprint di v ++ (',' :: '\n' :: printMembers di dc (p2 :: ms2))))) ++ rest) := by
      rw [show printMembers di dc ((k, v) :: p2 :: ms2) =
          ind di ++ ('"' :: (escStr k.data ++ ('"' :: ':' :: ' ' ::
            (jprint di v ++ (',' :: '\n' :: printMembers di dc (p2 :: ms2))))))
          from by rw [printMembers]; simp]
      rw [List.append_assoc, skipWs_append_ws _ _ (wsOnly_ind di),
        List.cons_append, skipWs_cons_not _ _ (by decide)]
    exact ⟨_, heq⟩

theorem parseArrTail_items (fuel : ℕ) (r rest : List Char) (c0 : Char)
    (t0 : List Char) (l : List JValue) (hsk : skipWs r = c0 :: t0)
    (hc0 : c0 ≠ ']') (hp : parseItems fuel r = some (l, rest)) :
    parseArrTail fuel r = some (JValue.arr l, rest) := by
  rw [parseArrTail, hsk, hp]
  split
  · rename_i r2 heq
    injection heq with h1 h2
    exact absurd h1 hc0
  · rfl

theorem parseObjTail_members (fuel : ℕ) (r rest : List Char) (c0 : Char)
    (t0 : List Char) (m : List (String × JValue)) (hsk : skipWs r = c0 :: t0)
    (hc0 : c0 ≠ '\x7d') (hp : parseMembers fuel r = some (m, rest)) :
    parseObjTail fuel r = some (JValue.obj m, rest) := by
  rw [parseObjTail, hsk, hp]
  split
  · rename_i r2 heq
    injection heq with h1 h2
    exact absurd h1 hc0
  · rfl

theorem parse_print_roundtrip (fuel : ℕ) :
    (∀ (v : JValue) (d : ℕ) (ws rest : List Char), sizeJ v ≤ fuel →
       (∀ c ∈ ws, isWsChar c = true) →
       (∀ c, rest.head? = some c → isAsciiDigit c = false) →
       parseVal fuel (ws ++ (jprint d v ++ rest)) = some (v, rest)) ∧
    (∀ (l : List JValue) (di dc : ℕ) (ws rest : List Char), sizeL l ≤ fuel →
       l ≠ [] → (∀ c ∈ ws, isWsChar c = true) →
       parseItems fuel (ws ++ (printItems di dc l ++ rest)) = some (l, rest)) ∧
    (∀ (m : List (String × JValue)) (di dc : ℕ) (ws rest : List Char),
       sizeM m ≤ fuel → m ≠ [] → (∀ c ∈ ws, isWsChar c = true) →
       parseMembers fuel (ws ++ (printMembers di dc m ++ rest)) = some (m, rest)) := by
  induction fuel with
  | zero =>
    refine ⟨?_, ?_, ?_⟩
    · intro v d ws rest hf _ _
      exact absurd hf (by have := one_le_sizeJ v; omega)
    · intro l di dc ws rest hf _ _
      exact absurd hf (by have := one_le_sizeL l; omega)
    · intro m di dc ws rest hf _ _
      exact absurd hf (by have := one_le_sizeM m; omega)
  | succ fuel ih =>
    obtain ⟨ihV, ihI, ihM⟩ := ih
    refine ⟨?_, ?_, ?_⟩
    · intro v d ws rest hf hws hrest
      cases v with
      | null =>
        rw [parseVal, show jprint d JValue.null = ['n', 'u', 'l', 'l'] from by rw [jprint],
          skipWs_append_ws _ _ hws,
          show (['n', 'u', 'l', 'l'] : List Char) ++ rest = 'n' :: (['u', 'l', 'l'] ++ rest)
            from rfl,
          skipWs_cons_not _ _ (by decide)]
        simp
        exact expectChars_self _ _
      | bool b =>
        cases b with
        | true =>
          rw [parseVal,
            show jprint d (JValue.bool true) = ['t', 'r', 'u', 'e'] from by rw [jprint],
            skipWs_append_ws _ _ hws,
            show (['t', 'r', 'u', 'e'] : List Char) ++ rest = 't' :: (['r', 'u', 'e'] ++ rest)
              from rfl,
            skipWs_cons_not _ _ (by decide)]
          simp
          exact expectChars_self _ _
        | false =>
          rw [parseVal,
            show jprint d (JValue.bool false) = ['f', 'a', 'l', 's', 'e'] from by rw [jprint],
            skipWs_append_ws _ _ hws,
            show (['f', 'a', 'l', 's', 'e'] : List Char) ++ rest =
              'f' :: (['a', 'l', 's', 'e'] ++ rest) from rfl,
            skipWs_cons_not _ _ (by decide)]
          simp
          exact expectChars_self _ _
      | str s =>
        rw [parseVal,
          show jprint d (JValue.str s) = '"' :: (escStr s.data ++ ['"']) from by rw [jprint],
          List.cons_append, skipWs_append_ws _ _ hws, skipWs_cons_not _ _ (by decide)]
        simp [List.append_assoc, parseStrBody_escStr]
      | num n =>
        rw [parseVal, show jprint d (JValue.num n) = intChars n from by rw [jprint],
          intChars]
        split_ifs with hn0
        · rw [List.cons_append, skipWs_append_ws _ _ hws, skipWs_cons_not _ _ (by decide)]
          simp [parseNum_natDigits _ _ hrest,
            Int.ofNat_natAbs_of_nonpos (le_of_lt hn0)]
        · cases hnd : natDigits n.toNat with
          | nil => exact absurd hnd (natDigits_ne_nil _)
          | cons c cs =>
            have hmem : c ∈ digits10 :=
              natDigits_mem n.toNat c (by rw [hnd]; exact List.mem_cons_self _ _)
            have hdig := mem_digits10_isDigit hmem
            obtain ⟨hcw, hcn, hct, hcf, hcq, hcb, hcbr, hcm, _, _⟩ :=
              mem_digits10_notDelims hmem
            rw [List.cons_append, skipWs_append_ws _ _ hws, skipWs_cons_not _ _ hcw]
            simp only [if_neg hcn, if_neg hct, if_neg hcf, if_neg hcq, if_neg hcb,
              if_neg hcbr, if_neg hcm, hdig, if_true]
            rw [show c :: (cs ++ rest) = natDigits n.toNat ++ rest from by
                rw [hnd, List.cons_append],
              parseNum_natDigits _ _ hrest]
            simp
            omega
      | arr l =>
        cases l with
        | nil =>
          rw [parseVal, show jprint d (JValue.arr []) = ['[', ']'] from by rw [jprint],
            skipWs_append_ws _ _ hws,
            show (['[', ']'] : List Char) ++ rest = '[' :: (']' :: rest) from rfl,
            skipWs_cons_not _ _ (by decide)]
          simp [parseArrTail, skipWs_cons_not _ _ (show isWsChar ']' = false from rfl)]
        | cons x xs =>
          have hsize : sizeL (x :: xs) ≤ fuel := by
            simp only [sizeJ] at hf
            omega
          obtain ⟨c0, t0, hsk, hc0ws, hc0rb, hc0cb⟩ :=
            skipWs_printItems (d + 1) d (x :: xs) rest (by simp)
          have hsk2 : skipWs ('\n' :: (printItems (d + 1) d (x :: xs) ++ rest)) =
              c0 :: t0 := by
            rw [show ('\n' :: (printItems (d + 1) d (x :: xs) ++ rest) : List Char) =
                ['\n'] ++ (printItems (d + 1) d (x :: xs) ++ rest) from rfl,
              skipWs_append_ws _ _ (by intro c hc; simp at hc; subst hc; rfl), hsk]
          have hI := ihI (x :: xs) (d + 1) d ['\n'] rest hsize (by simp) (by
            intro c hc
            simp at hc
            subst hc
            rfl)
          rw [List.singleton_append] at hI
          rw [parseVal,
            show jprint d (JValue.arr (x :: xs)) =
              '[' :: '\n' :: printItems (d + 1) d (x :: xs) from by rw [jprint],
            List.cons_append, List.cons_append, skipWs_append_ws _ _ hws,
            skipWs_cons_not _ _ (by decide)]
          simp only [if_neg (show ('[' : Char) ≠ 'n' from by decide),
            if_neg (show ('[' : Char) ≠ 't' from by decide),
            if_neg (show ('[' : Char) ≠ 'f' from by decide),
            if_neg (show ('[' : Char) ≠ '"' from by decide),
            if_pos (show ('[' : Char) = '[' from rfl)]
          exact parseArrTail_items fuel _ rest c0 t0 (x :: xs) hsk2 hc0rb hI
      | obj m =>
        cases m with
        | nil =>
          rw [parseVal, show jprint d (JValue.obj []) = ['\x7b', '\x7d'] from by rw [jprint],
            skipWs_append_ws _ _ hws,
            show (['\x7b', '\x7d'] : List Char) ++ rest = '\x7b' :: ('\x7d' :: rest) from rfl,
            skipWs_cons_not _ _ (by decide)]
          simp [parseObjTail, skipWs_cons_not _ _ (show isWsChar '\x7d' = false from rfl)]
        | cons p ms =>
          have hsize : sizeM (p :: ms) ≤ fuel := by
            simp only [sizeJ] at hf
            omega
          obtain ⟨t0, hsk⟩ := skipWs_printMembers (d + 1) d (p :: ms) rest (by simp)
          have hsk2 : skipWs ('\n' :: (printMembers (d + 1) d (p :: ms) ++ rest)) =
              '"' :: t0 := by
            rw [show ('\n' :: (printMembers (d + 1) d (p :: ms) ++ rest) : List Char) =
                ['\n'] ++ (printMembers (d + 1) d (p :: ms) ++ rest) from rfl,
              skipWs_append_ws _ _ (by intro c hc; simp at hc; subst hc; rfl), hsk]
          have hM := ihM (p :: ms) (d + 1) d ['\n'] rest hsize (by simp) (by
            intro c hc
            simp at hc
            subst hc
            rfl)
          rw [List.singleton_append] at hM
          rw [parseVal,
            show jprint d (JValue.obj (p :: ms)) =
              '\x7b' :: '\n' :: printMembers (d + 1) d (p :: ms) from by rw [jprint],
            List.cons_append, List.cons_append, skipWs_append_ws _ _ hws,
            skipWs_cons_not _ _ (by decide)]
          simp only [if_neg (show ('\x7b' : Char) ≠ 'n' from by decide),
            if_neg (show ('\x7b' : Char) ≠ 't' from by decide),
            if_neg (show ('\x7b' : Char) ≠ 'f' from by decide),
            if_neg (show ('\x7b' : Char) ≠ '"' from by decide),
            if_neg (show ('\x7b' : Char) ≠ '[' from by decide),
            if_pos (show ('\x7b' : Char) = '\x7b' from rfl)]
          exact parseObjTail_members fuel _ rest '"' t0 (p :: ms) hsk2 (by decide) hM
    · intro l di dc ws rest hf hne hws
      obtain ⟨x, xs, rfl⟩ : ∃ x xs, l = x :: xs := by
        cases l with
        | nil => exact absurd rfl hne
        | cons x xs => exact ⟨x, xs, rfl⟩
      have hsx : sizeJ x ≤ fuel := by
        simp only [sizeL] at hf
        omega
      cases xs with
      | nil =>
        have hV := ihV x di (ws ++ ind di) ('\n' :: (ind dc ++ (']' :: rest))) hsx
          (wsOnly_append hws (wsOnly_ind di)) (by intro c hc; simp at hc; subst hc; rfl)
        have hskr : skipWs ('\n' :: (ind dc ++ (']' :: rest))) = ']' :: rest := by
          rw [show ('\n' :: (ind dc ++ (']' :: rest)) : List Char) =
              ('\n' :: ind dc) ++ (']' :: rest) from by rw [List.cons_append],
            skipWs_append_ws _ _ (wsOnly_nl_ind dc), skipWs_cons_not _ _ (by decide)]
        rw [parseItems,
          show ws ++ (printItems di dc [x] ++ rest) =
            (ws ++ ind di) ++ (jprint di x ++ ('\n' :: (ind dc ++ (']' :: rest)))) from by
              rw [show printItems di dc [x] =
                ind di ++ (jprint di x ++ ('\n' :: (ind dc ++ [']']))) from by
                  rw [printItems]]
              simp [List.append_assoc]]
        simp only [List.append_assoc] at hV
        simp [hV, hskr]
      | cons y ys =>
        have hsy : sizeL (y :: ys) ≤ fuel := by
          simp only [sizeL] at hf ⊢
          omega
        have hV := ihV x di (ws ++ ind di)
          (',' :: ('\n' :: (printItems di dc (y :: ys) ++ rest))) hsx
          (wsOnly_append hws (wsOnly_ind di)) (by intro c hc; simp at hc; subst hc; rfl)
        have hI := ihI (y :: ys) di dc ['\n'] rest hsy (by simp)
          (by intro c hc; simp at hc; subst hc; rfl)
        rw [List.singleton_append] at hI
        have hsk1 : skipWs (',' :: ('\n' :: (printItems di dc (y :: ys) ++ rest))) =
            ',' :: ('\n' :: (printItems di dc (y :: ys) ++ rest)) :=
          skipWs_cons_not _ _ rfl
        rw [parseItems,
          show ws ++ (printItems di dc (x :: y :: ys) ++ rest) =
            (ws ++ ind di) ++ (jprint di x ++
              (',' :: ('\n' :: (printItems di dc (y :: ys) ++ rest)))) from by
              rw [show printItems di dc (x :: y :: ys) =
                ind di ++ (jprint di x ++ (',' :: '\n' :: printItems di dc (y :: ys)))
                from by rw [printItems]; simp]
              simp [List.append_assoc]]
        simp only [List.append_assoc] at hV
        simp [hV, hsk1, hI]
    · intro m di dc ws rest hf hne hws
      obtain ⟨k, v, ms, rfl⟩ : ∃ k v ms, m = (k, v) :: ms := by
        cases m with
        | nil => exact absurd rfl hne
        | cons p ms =>
          obtain ⟨k, v⟩ := p
          exact ⟨k, v, ms, rfl⟩
      have hsv : sizeJ v ≤ fuel := by
        simp only [sizeM] at hf
        omega
      cases ms with
      | nil =>
        have hV := ihV v di [' '] ('\n' :: (ind dc ++ ('\x7d' :: rest))) hsv
          (by intro c hc; simp at hc; subst hc; rfl)
          (by intro c hc; simp at hc; subst hc; rfl)
        rw [List.singleton_append] at hV
        have hskr : skipWs ('\n' :: (ind dc ++ ('\x7d' :: rest))) = '\x7d' :: rest := by
          rw [show ('\n' :: (ind dc ++ ('\x7d' :: rest)) : List Char) =
              ('\n' :: ind dc) ++ ('\x7d' :: rest) from by rw [List.cons_append],
            skipWs_append_ws _ _ (wsOnly_nl_ind dc), skipWs_cons_not _ _ (by decide)]
        have hsk1 : skipWs (':' :: (' ' ::
            (jprint di v ++ ('\n' :: (ind dc ++ ('\x7d' :: rest)))))) =
            ':' :: (' ' :: (jprint di v ++ ('\n' :: (ind dc ++ ('\x7d' :: rest))))) :=
          skipWs_cons_not _ _ rfl
        rw [parseMembers,
          show ws ++ (printMembers di dc [(k, v)] ++ rest) =
            (ws ++ ind di) ++ ('"' :: (escStr k.data ++ ('"' :: ':' :: ' ' ::
              (jprint di v ++ ('\n' :: (ind dc ++ ('\x7d' :: rest))))))) from by
              rw [show printMembers di dc [(k, v)] =
                ind di ++ ('"' :: (escStr k.data ++ ('"' :: ':' :: ' ' ::
                  (jprint di v ++ ('\n' :: (ind dc ++ ['\x7d'])))))) from by
                    rw [printMembers]]
              simp [List.append_assoc],
          skipWs_append_ws _ _ (wsOnly_append hws (wsOnly_ind di)),
          skipWs_cons_not _ _ (by decide)]
        simp [parseStrBody_escStr, hsk1, hV, hskr]
      | cons p2 ms2 =>
        have hsm : sizeM (p2 :: ms2) ≤ fuel := by
          simp only [sizeM] at hf ⊢
          omega
        have hV := ihV v di [' ']
          (',' :: ('\n' :: (printMembers di dc (p2 :: ms2) ++ rest))) hsv
          (by intro c hc; simp at hc; subst hc; rfl)
          (by intro c hc; simp at hc; subst hc; rfl)
        rw [List.singleton_append] at hV
        have hM := ihM (p2 :: ms2) di dc ['\n'] rest hsm (by simp)
          (by intro c hc; simp at hc; subst hc; rfl)
        rw [List.singleton_append] at hM
        have hsk1 : skipWs (':' :: (' ' :: (jprint di v ++ (',' :: ('\n' ::
            (printMembers di dc (p2 :: ms2) ++ rest)))))) =
            ':' :: (' ' :: (jprint di v ++ (',' :: ('\n' ::
              (printMembers di dc (p2 :: ms2) ++ rest))))) :=
          skipWs_cons_not _ _ rfl
        have hsk2 : skipWs (',' :: ('\n' :: (printMembers di dc (p2 :: ms2) ++ rest))) =
            ',' :: ('\n' :: (printMembers di dc (p2 :: ms2) ++ rest)) :=
          skipWs_cons_not _ _ rfl
        rw [parseMembers,
          show ws ++ (printMembers di dc ((k, v) :: p2 :: ms2) ++ rest) =
            (ws ++ ind di) ++ ('"' :: (escStr k.data ++ ('"' :: ':' :: ' ' ::
              (jprint di v ++ (',' :: ('\n' ::
                (printMembers di dc (p2 :: ms2) ++ rest))))))) from by
              rw [show printMembers di dc ((k, v) :: p2 :: ms2) =
                ind di ++ ('"' :: (escStr k.data ++ ('"' :: ':' :: ' ' ::
                  (jprint di v ++ (',' :: '\n' :: printMembers di dc (p2 :: ms2))))))
                from by rw [printMembers]; simp]
              simp [List.append_assoc],
          skipWs_append_ws _ _ (wsOnly_append hws (wsOnly_ind di)),
          skipWs_cons_not _ _ (by decide)]
        simp [parseStrBody_escStr, hsk1, hV, hsk2, hM]

end JsonLemmas

namespace DataExportUtils

mutual

/-- The parsing fuel `sizeJ` is dominated by the printed length. -/
theorem sizeJ_le_jprint : ∀ (d : ℕ) (v : JValue), sizeJ v ≤ (jprint d v).length + 1
  | d, .null => by simp only [jprint, sizeJ, List.length_cons]; omega
  | d, .bool b => by
    cases b <;> simp only [jprint, sizeJ, List.length_cons] <;> omega
  | d, .num n => by simp only [jprint, sizeJ]; omega
  | d, .str s => by simp only [jprint, sizeJ]; omega
  | d, .arr [] => by simp only [jprint, sizeJ, sizeL, List.length_cons]; omega
  | d, .arr (x :: xs) => by
    have h := sizeL_le_printItems (d + 1) d (x :: xs)
    simp only [jprint, sizeJ, List.length_cons]
    omega
  | d, .obj [] => by simp only [jprint, sizeJ, sizeM, List.length_cons]; omega
  | d, .obj (p :: ms) => by
    have h := sizeM_le_printMembers (d + 1) d (p :: ms)
    simp only [jprint, sizeJ, List.length_cons]
    omega

/-- Companion bound for printed item lists. -/
theorem sizeL_le_printItems : ∀ (di dc : ℕ) (l : List JValue),
    sizeL l ≤ (printItems di dc l).length + 1
  | di, dc, [] => by
    simp only [printItems, sizeL, List.length_cons, List.length_append]
    omega
  | di, dc, [x] => by
    have h := sizeJ_le_jprint di x
    simp only [printItems, sizeL, List.length_append, List.length_cons]
    omega
  | di, dc, x :: y :: ys => by
    have h1 := sizeJ_le_jprint di x
    have h2 := sizeL_le_printItems di dc (y :: ys)
    simp only [sizeL] at h2 ⊢
    simp only [printItems, List.length_append, List.length_cons]
    omega

/-- Companion bound for printed member lists. -/
theorem sizeM_le_printMembers : ∀ (di dc : ℕ) (m : List (String × JValue)),
    sizeM m ≤ (printMembers di dc m).length + 1
  | di, dc, [] => by
    simp only [printMembers, sizeM, List.length_cons, List.length_append]
    omega
  | di, dc, [(k, v)] => by
    have h := sizeJ_le_jprint di v
    simp only [printMembers, sizeM, List.length_append, List.length_cons]
    omega
  | di, dc, (k, v) :: p2 :: ms2 => by
    have h1 := sizeJ_le_jprint di v
    have h2 := sizeM_le_printMembers di dc (p2 :: ms2)
    simp only [sizeM] at h2 ⊢
    simp only [printMembers, List.length_append, List.length_cons]
    omega

end

/-- Reading back the exact text written by `json.dump` recovers the dumped
JSON value. -/
theorem jloads_jdumps (data : PyData) :
    jloads (jdumps data) = some (pyToJson data) := by
  have h := (parse_print_roundtrip ((jprint 0 (pyToJson data)).length + 1)).1
    (pyToJson data) 0 [] [] (sizeJ_le_jprint 0 (pyToJson data))
    (by intro c hc; cases hc) (by intro c hc; simp at hc)
  simp only [List.nil_append, List.append_nil] at h
  have hdata : (jdumps data).data = jprint 0 (pyToJson data) := rfl
  rw [jloads, hdata, h]
  rfl

mutual

/-- What `json.load` reconstructs from a dumped value is the original Python
value with every date replaced by its string rendering. -/
theorem jToPy_pyToJson : ∀ d : PyData, jToPy (pyToJson d) = replaceDates d
  | .none => by simp [pyToJson, jToPy, replaceDates]
  | .bool b => by simp [pyToJson, jToPy, replaceDates]
  | .int n => by simp [pyToJson, jToPy, replaceDates]
  | .str s => by simp [pyToJson, jToPy, replaceDates]
  | .date r => by simp [pyToJson, jToPy, replaceDates]
  | .list l => by
    simp only [pyToJson, jToPy, replaceDates]
    exact congrArg PyData.list (jToPyList_pyToJsonList l)
  | .dict m => by
    simp only [pyToJson, jToPy, replaceDates]
    exact congrArg PyData.dict (jToPyMembers_pyToJsonMembers m)

/-- Companion of `jToPy_pyToJson` for element lists. -/
theorem jToPyList_pyToJsonList : ∀ l : List PyData,
    jToPyList (pyToJsonList l) = replaceDatesList l
  | [] => by simp [pyToJsonList, jToPyList, replaceDatesList]
  | x :: t => by
    simp only [pyToJsonList, jToPyList, replaceDatesList, List.cons.injEq]
    exact ⟨jToPy_pyToJson x, jToPyList_pyToJsonList t⟩

/-- Companion of `jToPy_pyToJson` for member lists. -/
theorem jToPyMembers_pyToJsonMembers : ∀ m : List (String × PyData),
    jToPyMembers (pyToJsonMembers m) = replaceDatesMembers m
  | [] => by simp [pyToJsonMembers, jToPyMembers, replaceDatesMembers]
  | (k, v) :: t => by
    simp only [pyToJsonMembers, jToPyMembers, replaceDatesMembers, List.cons.injEq,
      Prod.mk.injEq]
    exact ⟨⟨trivial, jToPy_pyToJson v⟩, jToPyMembers_pyToJsonMembers t⟩

end

end DataExportUtils

end CPM

/-! ## Claims -/

namespace CPM

/-- **C4.** `validate_phone` returns true iff the input, with all non-digit
characters stripped, consists of exactly 9 digits, or of exactly 12 digits
beginning with the country code `237`; it accepts `"677123456"` and
`"237677123456"` and rejects `"12345"`. -/
theorem validate_phone_spec :
    (∀ s : String,
      ValidationUtils.validate_phone s =
        (let d := s.data.filter isAsciiDigit
         d.length = 9 || (d.length = 12 && decide (d.take 3 = ['2', '3', '7'])))) ∧
    ValidationUtils.validate_phone "677123456" = true ∧
    ValidationUtils.validate_phone "237677123456" = true ∧
    ValidationUtils.validate_phone "12345" = false := by
  refine ⟨?_, by decide, by decide, by decide⟩
  intro s
  simp only [ValidationUtils.validate_phone, isPrefixOf_237]
  by_cases h12 : (s.data.filter isAsciiDigit).length = 12 <;>
    by_cases h9 : (s.data.filter isAsciiDigit).length = 9 <;>
      by_cases h237 : (s.data.filter isAsciiDigit).take 3 = ['2', '3', '7'] <;>
        simp [h12, h9, h237]

open CalculationUtils in
/-- **C6.** `calculate_percentage_change` returns 100 when the old value is 0
and the new one is not, 0 when both are 0, and otherwise the relative change
times 100; in particular the three documented sample values. -/
theorem calculate_percentage_change_spec (old_value new_value : ℚ) :
    (calculate_percentage_change old_value new_value =
      if old_value = 0 then (if new_value = 0 then 0 else 100)
      else ((new_value - old_value) / old_value) * 100) ∧
    calculate_percentage_change 0 0 = 0 ∧
    calculate_percentage_change 0 5 = 100 ∧
    calculate_percentage_change 100 150 = 50 := by
  refine ⟨?_, by norm_num [calculate_percentage_change],
    by norm_num [calculate_percentage_change],
    by norm_num [calculate_percentage_change]⟩
  by_cases h : old_value = 0 <;> by_cases h2 : new_value = 0 <;>
    simp [calculate_percentage_change, h, h2]

open CalculationUtils in
/-- **C5.** `calculate_material_requirements` returns 0 when the coverage is 0
and `(area / coverage) * (1 + waste)` otherwise; with waste 0 and nonzero
coverage it returns `area / coverage`. -/
theorem calculate_material_requirements_spec (a c w : ℚ) :
    (calculate_material_requirements a c w =
      if c = 0 then 0 else a / c * (1 + w)) ∧
    (c ≠ 0 → calculate_material_requirements a c 0 = a / c) := by
  constructor
  · by_cases h : c = 0 <;> simp [calculate_material_requirements, h]
  · intro h
    simp [calculate_material_requirements, h]

open CalculationUtils in
/-- Witness for C5 at `area = 6`, `coverage = 3`, `waste = 0`. -/
theorem calculate_material_requirements_spec_witness :
    (3 : ℚ) ≠ 0 ∧ calculate_material_requirements 6 3 0 = 6 / 3 :=
  ⟨by norm_num, (calculate_material_requirements_spec 6 3 0).2 (by norm_num)⟩

open ReportUtils in
/-- **C3.** `generate_inventory_report` returns the length of the input as
`total_items`, the sum of quantity times price as `total_value`, exactly the
lines with quantity below 10 as `low_stock_items`, a per-category rollup whose
count and value entries sum the lines of that category, and on the empty list
0, 0 and an empty category map. -/
theorem generate_inventory_report_spec (store_data : List InvItem) (now : String) :
    (generate_inventory_report store_data now).total_items = store_data.length ∧
    (generate_inventory_report store_data now).total_value =
      (store_data.map (fun i => itemQty i * itemPrice i)).sum ∧
    (generate_inventory_report store_data now).low_stock_items =
      store_data.filter (fun i => itemQty i < 10) ∧
    (∀ c : String,
      List.lookup c (generate_inventory_report store_data now).categories =
        (let sub := store_data.filter (fun i => itemCategory i = c)
         if sub = [] then none
         else some ⟨sub.length, (sub.map itemValue).sum⟩)) ∧
    (generate_inventory_report [] now).total_items = 0 ∧
    (generate_inventory_report [] now).total_value = 0 ∧
    (generate_inventory_report [] now).categories = [] := by
  refine ⟨rfl, rfl, rfl, ?_, rfl, rfl, rfl⟩
  intro c
  have hcat : (generate_inventory_report store_data now).categories =
      store_data.foldl (fun cats i => updateCat cats (itemCategory i) (itemValue i)) [] :=
    rfl
  rw [hcat, lookup_foldl_updateCat, List.lookup_nil, foldl_bumpCat_none]

open SecurityUtils in
/-- **C10.** `is_safe_filename` returns false whenever the name contains a path
separator, contains `".."`, starts with `'.'` or is empty, and returns true
exactly for a non-empty string of ASCII letters, digits, dots, underscores,
hyphens and whitespace that does not start with `'.'` and contains no `".."`. -/
theorem is_safe_filename_spec (f : String) :
    (('/' ∈ f.data ∨ '\\' ∈ f.data ∨ hasDotDot f.data = true ∨
        startsDot f.data = true ∨ f = "") →
      is_safe_filename f = false) ∧
    (is_safe_filename f = true ↔
      (f.data ≠ [] ∧
        (∀ c ∈ f.data,
          isAsciiAlpha c = true ∨ isAsciiDigit c = true ∨ c = '.' ∨ c = '_' ∨
            c = '-' ∨ isPySpace c = true) ∧
        startsDot f.data = false ∧ hasDotDot f.data = false)) := by
  have hiff : is_safe_filename f = true ↔
      (f.data ≠ [] ∧
        (∀ c ∈ f.data,
          isAsciiAlpha c = true ∨ isAsciiDigit c = true ∨ c = '.' ∨ c = '_' ∨
            c = '-' ∨ isPySpace c = true) ∧
        startsDot f.data = false ∧ hasDotDot f.data = false) := by
    simp only [is_safe_filename, Bool.and_eq_true, Bool.not_eq_true',
      List.isEmpty_eq_false, List.all_eq_true, isSafeChar, Bool.or_eq_true,
      decide_eq_true_iff, and_assoc, or_assoc]
  refine ⟨?_, hiff⟩
  intro h
  cases hb : is_safe_filename f with
  | false => rfl
  | true =>
    exfalso
    obtain ⟨hne, hall, hsd, hdd⟩ := hiff.mp hb
    rcases h with h | h | h | h | h
    · exact absurd (hall _ h) (by decide)
    · exact absurd (hall _ h) (by decide)
    · simp [h] at hdd
    · simp [h] at hsd
    · subst h; exact hne rfl

open SecurityUtils in
/-- Witness for C10 at the name `"a/b"`, which contains a path separator. -/
theorem is_safe_filename_spec_witness :
    SecurityUtils.is_safe_filename "a/b" = false :=
  (is_safe_filename_spec "a/b").1 (Or.inl (by decide))

open SecurityUtils in
/-- **C1.** Password verification succeeds on the derived credential: for any
password and any caller-supplied salt,
`verify_password(p, hash_password(p, s).hash, s)` is true, and with no salt
given (the generated salt being the environment input `fresh_salt`)
`verify_password(p, *hash_password(p))` is true, because the derivation is
deterministic in `(password, salt)`. -/
theorem verify_password_hash_password (p salt fresh_salt : String) :
    verify_password p (hash_password p (some salt) fresh_salt).1 salt = true ∧
    verify_password p (hash_password p none fresh_salt).1
      (hash_password p none fresh_salt).2 = true := by
  constructor <;> simp [verify_password, hash_password]

open ReportUtils DateTimeUtils in
/-- **C7.** Transactions whose `transaction_date` fails to parse contribute to
no field of the sales report — the whole report is unchanged when they are
removed from the input — and the `average_sale` field is the revenue divided
by the number of sales when that number is positive and 0 otherwise. -/
theorem generate_sales_report_spec {DT : Type} [LinearOrder DT]
    (strptime : String → String → Option DT) (strftime : DT → String)
    (now : DT) (sub_days : DT → ℤ → DT)
    (transactions : List Transaction) (period_days : ℤ) :
    generate_sales_report strptime strftime now sub_days transactions period_days =
      generate_sales_report strptime strftime now sub_days
        (transactions.filter (fun t => (parse_date strptime (transDate t)).isSome))
        period_days ∧
    (generate_sales_report strptime strftime now sub_days transactions
        period_days).average_sale =
      (if (generate_sales_report strptime strftime now sub_days transactions
            period_days).total_sales = 0
       then 0
       else
        (generate_sales_report strptime strftime now sub_days transactions
            period_days).total_revenue /
          ((generate_sales_report strptime strftime now sub_days transactions
              period_days).total_sales : ℚ)) := by
  have hfilter : transactions.filter (inPeriod strptime (sub_days now period_days) now) =
      (transactions.filter (fun t => (parse_date strptime (transDate t)).isSome)).filter
        (inPeriod strptime (sub_days now period_days) now) := by
    induction transactions with
    | nil => rfl
    | cons t ts ih =>
      cases hp : parse_date strptime (transDate t) with
      | none => simp [List.filter_cons, inPeriod, hp, ih]
      | some d => simp [List.filter_cons, inPeriod, hp, ih]
  constructor
  · simp only [generate_sales_report]
    rw [hfilter]
  · have havg : ∀ pt : List Transaction,
        (if 0 < pt.length then ((pt.map transAmount).sum) / (pt.length : ℚ) else 0) =
          (if pt.length = 0 then (0 : ℚ)
           else ((pt.map transAmount).sum) / (pt.length : ℚ)) := by
      intro pt
      by_cases h : pt.length = 0
      · simp [h]
      · simp [h, Nat.pos_of_ne_zero h]
    exact havg (transactions.filter (inPeriod strptime (sub_days now period_days) now))

open DataExportUtils in
/-- **C8.** `export_to_csv` and `export_to_json` return a boolean and never
propagate an exception: each returns true exactly when its body succeeds
(non-empty data, successful open/write, and rows confined to the first row's
field names for CSV; successful open/write for JSON), and false on every
failure, whatever the data's shape or the fate of the target path. -/
theorem export_success_iff :
    (∀ (wf : String → Except PyErr Unit) (data : List (List (String × PyData)))
        (filename : String),
      export_to_csv wf data filename = true ↔
        (data ≠ [] ∧ wf filename = .ok () ∧
          rowKeysOk ((data.headD []).map Prod.fst) data = true)) ∧
    (∀ (wf : String → String → Except PyErr Unit) (data : PyData)
        (filename : String),
      export_to_json wf data filename = true ↔
        wf filename (jdumps data) = .ok ()) := by
  constructor
  · intro wf data filename
    cases data with
    | nil => simp [export_to_csv, export_to_csv_body]
    | cons row0 rest =>
      cases hw : wf filename with
      | error e =>
          simp [export_to_csv, export_to_csv_body, hw, bind, Except.bind]
      | ok u =>
          cases u
          by_cases hk : rowKeysOk (row0.map Prod.fst) (row0 :: rest) = true
          · simp [export_to_csv, export_to_csv_body, hw, bind, Except.bind, hk]
          · simp [export_to_csv, export_to_csv_body, hw, bind, Except.bind, hk]
  · intro wf data filename
    cases hw : wf filename (jdumps data) with
    | ok u => cases u; simp [export_to_json, hw]
    | error e => simp [export_to_json, hw]

open DataExportUtils in
/-- **C9.** Whenever `export_to_json(data, f)` returns true, parsing the JSON
text written to `f` yields a value equal to `data`, except that dates are
reproduced as their string renderings (the `default=str` fallback): the
written text parses back to exactly the dumped JSON value, and that value
denotes `data` with every date replaced by its rendering. -/
theorem export_to_json_roundtrip (wf : String → String → Except PyErr Unit)
    (data : PyData) (filename : String)
    (_hexp : export_to_json wf data filename = true) :
    jloads (jdumps data) = some (pyToJson data) ∧
    jToPy (pyToJson data) = replaceDates data :=
  ⟨jloads_jdumps data, jToPy_pyToJson data⟩

open DataExportUtils in
/-- Witness for C9: a write that succeeds, on the value `None`. -/
theorem export_to_json_roundtrip_witness :
    export_to_json (fun _ _ => Except.ok ()) PyData.none "report.json" = true ∧
    (jloads (jdumps PyData.none) = some (pyToJson PyData.none) ∧
      jToPy (pyToJson PyData.none) = replaceDates PyData.none) :=
  ⟨rfl, export_to_json_roundtrip (fun _ _ => Except.ok ()) PyData.none "report.json" rfl⟩

/-- **C2 (counterexample).** The claim says every validation function returns
its normal result even on non-string inputs, but `validate_email` applied to
the integer `0` raises `TypeError` (Python's `re.match` rejects non-string
arguments), so failure is not reported as `false`. -/
theorem validate_email_raises_on_int :
    ValidationUtils.Dyn.validate_email (PyValue.int 0) =
      Except.error PyErr.typeError := rfl

open ValidationUtils in
/-- **C2 (amended).** For every *string* input, `validate_email`,
`validate_phone` and `validate_password` return their normal result type and
never raise; `validate_price` returns an optional rational and never raises on
any input, string or not. -/
theorem validation_total_on_strings :
    (∀ s : String, Dyn.validate_email (.str s) = .ok (validate_email s)) ∧
    (∀ s : String, Dyn.validate_phone (.str s) = .ok (validate_phone s)) ∧
    (∀ s : String, Dyn.validate_password (.str s) = .ok (validate_password s)) ∧
    (∀ v : PyValue, ∃ r : Option ℚ, Dyn.validate_price v = .ok r) := by
  refine ⟨fun s => rfl, fun s => rfl, fun s => rfl, ?_⟩
  intro v
  cases v with
  | str s =>
      cases hp : pyFloatOfString (stripCommaSpace s) with
      | none =>
          exact ⟨Option.none, by
            simp [Dyn.validate_price, Dyn.validate_price_body, hp]⟩
      | some p =>
          exact ⟨if 0 ≤ p then some p else Option.none, by
            simp [Dyn.validate_price, Dyn.validate_price_body, hp]⟩
  | int n => exact ⟨Option.none, rfl⟩
  | float q => exact ⟨Option.none, rfl⟩
  | bool b => exact ⟨Option.none, rfl⟩
  | none => exact ⟨Option.none, rfl⟩
  | list l => exact ⟨Option.none, rfl⟩

end CPM
